import Mathlib

/-!
Verification of the task-scheduler subsystem (`taskScheduler.py`): the trigger
parser (`parse_vevent`, `_parse_rrule`, `_parse_dt_value`), the recurrence
engine (`_next_run_after`, `_add_months`) and the tick of `TaskScheduler._tick`.

Modelling conventions:
* A Python `datetime` (always timezone-aware UTC in the scheduler's data flow,
  with zero microseconds for every value built from the supported literal
  grammar) is the record `DT` of calendar fields.  Python compares aware
  datetimes by absolute instant; on calendar-valid values that order is the
  lexicographic order on (year, month, day, hour, minute, second), which we
  realise by the injective linearisation `DT.key`.
* `timedelta` addition acts on the absolute time line; it is modelled by
  carrying whole days onto the calendar date (`addDays`) and the remaining
  seconds onto the time of day.
* The `datetime` constructor and `datetime.replace` validate every field and
  raise `ValueError` on an invalid combination (e.g. Feb 29 of a non-leap
  year) or a year outside `MINYEAR = 1 .. MAXYEAR = 9999`; this is the
  `Option` result of `mkDT?`.  `datetime ± timedelta` raises `OverflowError`
  when the shifted instant leaves `[datetime.min, datetime.max]` —
  equivalently, when the resulting year leaves 1..9999 — which is the `none`
  of `addDays`/`addSeconds` (an unconstructible `timedelta`, beyond
  ±999999999 days, forces the result of any in-range start far outside that
  range as well, so both raise paths are the same `none`).
* The `while` loop of `_next_run_after` can diverge (e.g. for a negative
  INTERVAL), so its embedding `runLoop` takes a fuel argument; the outer
  `none` means "the loop did not finish within the given fuel" and carries no
  information about the program.
* The timezone environment consulted by `_attach_tz` (ZoneInfo lookup, local
  timezone fallback, UTC last resort) is host-dependent but total (the chain
  never raises); it is abstracted as the function field of `TzEnv`.
-/

namespace TaskSched

/-- Calendar fields of a UTC datetime. -/
structure DT where
  y : Nat
  m : Nat
  d : Nat
  hh : Nat
  mi : Nat
  ss : Nat
deriving DecidableEq, Repr

/-- `31 if leap year else 28`-style leap rule, exactly the test in
`_add_months`: `y % 4 == 0 and (y % 100 != 0 or y % 400 == 0)`. -/
def isLeap (y : Nat) : Bool := y % 4 == 0 && (y % 100 != 0 || y % 400 == 0)

/-- Days in a month: the table `[31, 29/28, 31, 30, ...]` of `_add_months`
(also the validation table of `datetime`); months outside 1..12 never reach
the table and get a harmless default. -/
def dim (y m : Nat) : Nat :=
  if m = 2 then (if isLeap y then 29 else 28)
  else if m = 4 ∨ m = 6 ∨ m = 9 ∨ m = 11 then 30
  else 31

/-- Date part of the linearisation: strictly monotone in (y, m, d) for
calendar-valid fields (m ≤ 12 < 13, d ≤ 31 < 32). -/
def DT.dk (t : DT) : Nat := (t.y * 13 + t.m) * 32 + t.d

/-- Seconds since midnight. -/
def DT.sec (t : DT) : Nat := t.hh * 3600 + t.mi * 60 + t.ss

/-- Injective linearisation of a valid datetime; `a.key ≤ b.key` is the
embedding of Python's `a <= b` on aware datetimes. -/
def DT.key (t : DT) : Nat := t.dk * 86400 + t.sec

/-- The month/day/time field ranges, with no constraint on the year: the
invariant preserved by day-stepping (which may walk outside the year range
before the bound check). -/
def DT.Fields (t : DT) : Prop :=
  1 ≤ t.m ∧ t.m ≤ 12 ∧ 1 ≤ t.d ∧ t.d ≤ dim t.y t.m ∧
    t.hh ≤ 23 ∧ t.mi ≤ 59 ∧ t.ss ≤ 59

instance (t : DT) : Decidable t.Fields := by
  unfold DT.Fields; infer_instance

/-- The full range `datetime` enforces: `MINYEAR = 1 ≤ year ≤ MAXYEAR = 9999`
and all other fields in range. -/
def DT.Valid (t : DT) : Prop := 1 ≤ t.y ∧ t.y ≤ 9999 ∧ t.Fields

instance (t : DT) : Decidable t.Valid := by
  unfold DT.Valid; infer_instance

/-- The `datetime(...)` constructor (and `datetime.replace`): returns the
value when every field is in range (year within 1..9999), otherwise raises
`ValueError` (`none`). -/
def mkDT? (y m d hh mi ss : Nat) : Option DT :=
  if 1 ≤ y ∧ y ≤ 9999 ∧ 1 ≤ m ∧ m ≤ 12 ∧ 1 ≤ d ∧ d ≤ dim y m ∧
      hh ≤ 23 ∧ mi ≤ 59 ∧ ss ≤ 59
  then some ⟨y, m, d, hh, mi, ss⟩ else none

/-- Advance the calendar date by one day (time of day untouched). -/
def succDay (t : DT) : DT :=
  if t.d + 1 ≤ dim t.y t.m then { t with d := t.d + 1 }
  else if t.m < 12 then { t with m := t.m + 1, d := 1 }
  else { t with y := t.y + 1, m := 1, d := 1 }

/-- Step the calendar date back by one day (time of day untouched). -/
def predDay (t : DT) : DT :=
  if 2 ≤ t.d then { t with d := t.d - 1 }
  else if 2 ≤ t.m then { t with m := t.m - 1, d := dim t.y (t.m - 1) }
  else { t with y := t.y - 1, m := 12, d := 31 }

def addDaysNat : DT → Nat → DT
  | t, 0 => t
  | t, n + 1 => addDaysNat (succDay t) n

def subDaysNat : DT → Nat → DT
  | t, 0 => t
  | t, n + 1 => subDaysNat (predDay t) n

/-- `dt + timedelta(days=k)`: shift the calendar date by a signed number of
days.  Python raises `OverflowError` (`none`) when the result leaves
`[datetime.min, datetime.max]`, i.e. when the resulting year leaves 1..9999
(day-stepping backwards saturates at year 0 and never re-enters the range,
so the final-year check detects underflow as well); a `timedelta` too large
to construct throws the result of any in-range start far outside 1..9999, so
it is the same `none`. -/
def addDays (t : DT) (k : Int) : Option DT :=
  let r := if 0 ≤ k then addDaysNat t k.toNat else subDaysNat t (-k).toNat
  if 1 ≤ r.y ∧ r.y ≤ 9999 then some r else none

/-- Replace the time of day by `s` seconds after midnight (`s < 86400`). -/
def withSec (t : DT) (s : Nat) : DT :=
  { t with hh := s / 3600, mi := s % 3600 / 60, ss := s % 60 }

/-- `dt + timedelta(seconds=k)` (also hours, via `k = 3600·h`): absolute-time
addition, decomposed into a whole-day shift and the remaining time of day
(floor division and floor modulus, as in Python); `none` is the
`OverflowError` of an out-of-range result, as for `addDays`. -/
def addSeconds (t : DT) (k : Int) : Option DT :=
  let tot : Int := (t.sec : Int) + k
  addDays (withSec t (tot % 86400).toNat) (tot / 86400)

/-- `_add_months(dt, months)`: floor-divide the month index, clamp the day to
the target month's length, then `datetime.replace` (which validates; a
resulting year below 1 raises, i.e. `none`). -/
def add_months (t : DT) (months : Int) : Option DT :=
  let n : Int := (t.m : Int) - 1 + months
  let y2 : Nat := ((t.y : Int) + n / 12).toNat
  let m2 : Nat := (n % 12 + 1).toNat
  mkDT? y2 m2 (min t.d (dim y2 m2)) t.hh t.mi t.ss

/-- `candidate.replace(year=candidate.year + interval)`: same fields with a
new year, validated (Feb 29 of a non-leap target year raises `ValueError`). -/
def replace_year (t : DT) (k : Int) : Option DT :=
  mkDT? ((t.y : Int) + k).toNat t.m t.d t.hh t.mi t.ss

example : succDay ⟨2024, 2, 29, 0, 0, 0⟩ = ⟨2024, 3, 1, 0, 0, 0⟩ := by decide
example : add_months ⟨2024, 1, 31, 0, 0, 0⟩ 1 = some ⟨2024, 2, 29, 0, 0, 0⟩ := by decide
example : replace_year ⟨2024, 2, 29, 0, 0, 0⟩ 1 = none := by decide
example : addSeconds ⟨2025, 1, 1, 0, 0, 0⟩ (-1) = some ⟨2024, 12, 31, 23, 59, 59⟩ := by decide
example : addDays ⟨9999, 12, 31, 0, 0, 0⟩ 1 = none := by decide
example : addSeconds ⟨1, 1, 1, 0, 0, 0⟩ (-1) = none := by decide
example : replace_year ⟨9999, 1, 1, 0, 0, 0⟩ 1 = none := by decide

/-! ### String utilities

Python string primitives used by the parser, re-implemented structurally on
`List Char` so that every evaluation is kernel-reducible. -/

/-- Value of a decimal digit character. -/
def d1 (c : Char) : Nat := c.toNat - 48

def digitsVal (cs : List Char) : Nat := cs.foldl (fun a c => a * 10 + d1 c) 0

/-- The whitespace stripped by Python's `str.strip()`. -/
def isPySpace (c : Char) : Bool :=
  c = ' ' || c = '\t' || c = '\n' || c = '\r' || c = '\x0b' || c = '\x0c'

def pyStripL (cs : List Char) : List Char :=
  ((cs.dropWhile isPySpace).reverse.dropWhile isPySpace).reverse

/-- `str.strip()`. -/
def pyTrim (s : String) : String := String.mk (pyStripL s.toList)

/-- Split at the first occurrence of `sep` (Python `s.split(sep, 1)` when
`sep in s`); `none` when `sep` does not occur. -/
def splitFirstL (sep : List Char) : List Char → Option (List Char × List Char)
  | [] => none
  | c :: rest =>
    if sep.isPrefixOf (c :: rest) then some ([], (c :: rest).drop sep.length)
    else match splitFirstL sep rest with
      | some p => some (c :: p.1, p.2)
      | none => none

def pySplitFirst (sep s : String) : Option (String × String) :=
  (splitFirstL sep.toList s.toList).map fun p => (String.mk p.1, String.mk p.2)

/-- Python `s.startswith(pre)`. -/
def pyStartsWith (pre s : String) : Bool := pre.toList.isPrefixOf s.toList

/-- Python `s.split(c)` for a one-character separator. -/
def splitAllCh (sep : Char) : List Char → List (List Char)
  | [] => [[]]
  | c :: rest =>
    let r := splitAllCh sep rest
    if c = sep then [] :: r
    else match r with
      | [] => [[c]]
      | h :: t => (c :: h) :: t

/-- Python `str.splitlines()` (restricted to the `\n`, `\r`, `\r\n`
boundaries; the exotic unicode boundaries never occur in trigger text). -/
def splitlinesAux : List Char → List Char → List String
  | [], acc => if acc.isEmpty then [] else [String.mk acc.reverse]
  | '\r' :: '\n' :: rest, acc => String.mk acc.reverse :: splitlinesAux rest []
  | '\r' :: rest, acc => String.mk acc.reverse :: splitlinesAux rest []
  | '\n' :: rest, acc => String.mk acc.reverse :: splitlinesAux rest []
  | c :: rest, acc => splitlinesAux rest (c :: acc)

def pysplitlines (s : String) : List String := splitlinesAux s.toList []

/-- Python `int(s)` on a stripped string: optional sign then decimal digits
(`ValueError` is `none`; underscore-grouped literals are outside the model). -/
def pyInt (s : String) : Option Int :=
  match pyStripL s.toList with
  | '-' :: ds => if !ds.isEmpty && ds.all Char.isDigit then some (-(digitsVal ds : Int)) else none
  | '+' :: ds => if !ds.isEmpty && ds.all Char.isDigit then some ((digitsVal ds : Int)) else none
  | ds => if !ds.isEmpty && ds.all Char.isDigit then some ((digitsVal ds : Int)) else none

/-! ### `datetime.strptime`

`_parse_dt_value` tries the formats `%Y%m%dT%H%M%SZ`, `%Y%m%dT%H%MZ`,
`%Y%m%dT%H%M%S`, `%Y%m%dT%H%M`, `%Y%m%d`.  CPython compiles each directive to
a regex alternation (`%m` is `1[0-2]|0[1-9]|[1-9]`, etc.) and backtracks until
the whole string is consumed, then validates the matched fields through the
`datetime` constructor (with no further backtracking on a validation error).
Each directive is modelled as the ordered list of its candidate matches and a
format as the depth-first product of those lists; the first candidate that
consumes the whole input is the regex match, validated by `mkDT?`. -/

def candsY (cs : List Char) : List (Nat × List Char) :=
  match cs with
  | a :: b :: c :: e :: rest =>
    if a.isDigit && b.isDigit && c.isDigit && e.isDigit then
      [(digitsVal [a, b, c, e], rest)] else []
  | _ => []

def candsMonth : List Char → List (Nat × List Char)
  | a :: b :: rest =>
    (if a = '1' && b.isDigit && d1 b ≤ 2 then [(10 + d1 b, rest)] else []) ++
    (if a = '0' && b.isDigit && 1 ≤ d1 b then [(d1 b, rest)] else []) ++
    (if a.isDigit && 1 ≤ d1 a then [(d1 a, b :: rest)] else [])
  | [a] => if a.isDigit && 1 ≤ d1 a then [(d1 a, [])] else []
  | [] => []

def candsDay : List Char → List (Nat × List Char)
  | a :: b :: rest =>
    (if a = '3' && (b = '0' || b = '1') then [(30 + d1 b, rest)] else []) ++
    (if (a = '1' || a = '2') && b.isDigit then [(10 * d1 a + d1 b, rest)] else []) ++
    (if a = '0' && b.isDigit && 1 ≤ d1 b then [(d1 b, rest)] else []) ++
    (if a.isDigit && 1 ≤ d1 a then [(d1 a, b :: rest)] else [])
  | [a] => if a.isDigit && 1 ≤ d1 a then [(d1 a, [])] else []
  | [] => []

def candsHour : List Char → List (Nat × List Char)
  | a :: b :: rest =>
    (if a = '2' && b.isDigit && d1 b ≤ 3 then [(20 + d1 b, rest)] else []) ++
    (if (a = '0' || a = '1') && b.isDigit then [(10 * d1 a + d1 b, rest)] else []) ++
    (if a.isDigit then [(d1 a, b :: rest)] else [])
  | [a] => if a.isDigit then [(d1 a, [])] else []
  | [] => []

def candsMS : List Char → List (Nat × List Char)
  | a :: b :: rest =>
    (if a.isDigit && d1 a ≤ 5 && b.isDigit then [(10 * d1 a + d1 b, rest)] else []) ++
    (if a.isDigit then [(d1 a, b :: rest)] else [])
  | [a] => if a.isDigit then [(d1 a, [])] else []
  | [] => []

def candsLit (c : Char) : List Char → List (List Char)
  | a :: rest => if a = c then [rest] else []
  | [] => []

/-- Fields matched by a date-time format: (y, m, d, hh, mi, ss). -/
abbrev Six := Nat × Nat × Nat × Nat × Nat × Nat

def candsDate (cs : List Char) : List ((Nat × Nat × Nat) × List Char) :=
  (candsY cs).flatMap fun p1 =>
  (candsMonth p1.2).flatMap fun p2 =>
  (candsDay p2.2).map fun p3 => ((p1.1, p2.1, p3.1), p3.2)

def candsF1 (cs : List Char) : List (Six × List Char) :=
  (candsDate cs).flatMap fun pd =>
  (candsLit 'T' pd.2).flatMap fun r4 =>
  (candsHour r4).flatMap fun p5 =>
  (candsMS p5.2).flatMap fun p6 =>
  (candsMS p6.2).flatMap fun p7 =>
  (candsLit 'Z' p7.2).map fun r8 =>
    ((pd.1.1, pd.1.2.1, pd.1.2.2, p5.1, p6.1, p7.1), r8)

def candsF2 (cs : List Char) : List (Six × List Char) :=
  (candsDate cs).flatMap fun pd =>
  (candsLit 'T' pd.2).flatMap fun r4 =>
  (candsHour r4).flatMap fun p5 =>
  (candsMS p5.2).flatMap fun p6 =>
  (candsLit 'Z' p6.2).map fun r8 =>
    ((pd.1.1, pd.1.2.1, pd.1.2.2, p5.1, p6.1, 0), r8)

def candsF3 (cs : List Char) : List (Six × List Char) :=
  (candsDate cs).flatMap fun pd =>
  (candsLit 'T' pd.2).flatMap fun r4 =>
  (candsHour r4).flatMap fun p5 =>
  (candsMS p5.2).flatMap fun p6 =>
  (candsMS p6.2).map fun p7 =>
    ((pd.1.1, pd.1.2.1, pd.1.2.2, p5.1, p6.1, p7.1), p7.2)

def candsF4 (cs : List Char) : List (Six × List Char) :=
  (candsDate cs).flatMap fun pd =>
  (candsLit 'T' pd.2).flatMap fun r4 =>
  (candsHour r4).flatMap fun p5 =>
  (candsMS p5.2).map fun p6 =>
    ((pd.1.1, pd.1.2.1, pd.1.2.2, p5.1, p6.1, 0), p6.2)

def candsF5 (cs : List Char) : List (Six × List Char) :=
  (candsDate cs).map fun pd => ((pd.1.1, pd.1.2.1, pd.1.2.2, 0, 0, 0), pd.2)

/-- First regex match consuming the whole input. -/
def firstFull {α : Type} (cands : List (α × List Char)) : Option α :=
  (cands.find? fun p => p.2.isEmpty).map Prod.fst

/-- `datetime.strptime(s, fmt)`: the first complete regex match, validated
once by the `datetime` constructor. -/
def strptimeWith (fmt : List Char → List (Six × List Char)) (cs : List Char) : Option DT :=
  match firstFull (fmt cs) with
  | some (yv, mo, dd, h, mv, sv) => mkDT? yv mo dd h mv sv
  | none => none

/-! ### `datetime.fromisoformat` and the timezone environment -/

/-- Result of `fromisoformat`: a naive or an offset-aware value (the latter
already normalised to UTC by the `astimezone(timezone.utc)` at the use site). -/
inductive IsoRes where
  | naive (t : DT)
  | aware (t : DT)

def exact2 : List Char → Option (Nat × List Char)
  | a :: b :: rest => if a.isDigit && b.isDigit then some (10 * d1 a + d1 b, rest) else none
  | _ => none

def fromisoTime (cs : List Char) : Option (Nat × Nat × Nat × List Char) :=
  match exact2 cs with
  | none => none
  | some (h, r1) =>
    match r1 with
    | ':' :: r2 =>
      match exact2 r2 with
      | none => none
      | some (mv, r3) =>
        match r3 with
        | ':' :: r4 =>
          match exact2 r4 with
          | none => none
          | some (sv, r5) => some (h, mv, sv, r5)
        | _ => some (h, mv, 0, r3)
    | _ => some (h, 0, 0, r1)

def fromisoOffTail (cs : List Char) : Option (Int × List Char) :=
  match exact2 cs with
  | none => none
  | some (h, r1) =>
    if h ≤ 23 then
      match r1 with
      | ':' :: r2 =>
        match exact2 r2 with
        | none => none
        | some (mv, r3) =>
          if mv ≤ 59 then
            match r3 with
            | ':' :: r4 =>
              match exact2 r4 with
              | none => none
              | some (sv, r5) => if sv ≤ 59 then some ((h * 3600 + mv * 60 + sv : Nat), r5) else none
            | _ => some ((h * 3600 + mv * 60 : Nat), r3)
          else none
      | _ => none
    else none

def fromisoOff (cs : List Char) : Option (Int × List Char) :=
  match cs with
  | 'Z' :: rest => some (0, rest)
  | 'z' :: rest => some (0, rest)
  | '+' :: rest => fromisoOffTail rest
  | '-' :: rest => (fromisoOffTail rest).map fun p => (-p.1, p.2)
  | _ => none

/-- `datetime.fromisoformat` on the extended grammar
`YYYY-MM-DD[{T,space}HH[:MM[:SS]][offset]]` with offset `Z`/`±HH:MM[:SS]`.
Python 3.11 additionally accepts basic-format, ordinal/week dates and
fractional seconds; those inputs do not occur in this development (the basic
forms are consumed by the strptime formats above) and are outside the model. -/
def fromiso (cs : List Char) : Option IsoRes :=
  match cs with
  | y1 :: y2 :: y3 :: y4 :: '-' :: m1 :: m2 :: '-' :: da :: db :: rest =>
    if y1.isDigit && y2.isDigit && y3.isDigit && y4.isDigit &&
        m1.isDigit && m2.isDigit && da.isDigit && db.isDigit then
      let yv := digitsVal [y1, y2, y3, y4]
      let mo := 10 * d1 m1 + d1 m2
      let dd := 10 * d1 da + d1 db
      match rest with
      | [] => (mkDT? yv mo dd 0 0 0).map .naive
      | sep :: rtime =>
        if sep = 'T' || sep = ' ' then
          match fromisoTime rtime with
          | none => none
          | some (h, mv, sv, r2) =>
            match mkDT? yv mo dd h mv sv with
            | none => none
            | some dt =>
              match r2 with
              | [] => some (.naive dt)
              | _ =>
                match fromisoOff r2 with
                | some (off, []) => (addSeconds dt (-off)).map .aware
                | _ => none
        else none
    else none
  | _ => none

/-- Abstraction of the timezone environment consulted by `_attach_tz` for a
naive datetime: given the optional TZID and the naive fields, produce the UTC
instant (ZoneInfo lookup, then the server's local timezone, then UTC; the
chain never raises, so it is a total host-dependent function). -/
structure TzEnv where
  resolve : Option String → DT → DT

/-- `_parse_dt_value(value, tzid)`: strip, try the two `Z` formats as UTC,
otherwise drop a trailing `Z` and try the naive formats, then
`fromisoformat`; naive results go through `_attach_tz`.  `none` is the
`ValueError` raise. -/
def parse_dt_value (tz : TzEnv) (value : String) (tzid : Option String) : Option DT :=
  let cs := pyStripL value.toList
  let naiveChain : List Char → Option DT := fun cs2 =>
    match strptimeWith candsF3 cs2 with
    | some dt => some (tz.resolve tzid dt)
    | none =>
      match strptimeWith candsF4 cs2 with
      | some dt => some (tz.resolve tzid dt)
      | none =>
        match strptimeWith candsF5 cs2 with
        | some dt => some (tz.resolve tzid dt)
        | none =>
          match fromiso cs2 with
          | some (.naive dt) => some (tz.resolve tzid dt)
          | some (.aware dt) => some dt
          | none => none
  if cs.getLast? = some 'Z' then
    match strptimeWith candsF1 cs with
    | some dt => some dt
    | none =>
      match strptimeWith candsF2 cs with
      | some dt => some dt
      | none => naiveChain cs.dropLast
  else naiveChain cs

/-- A trivial timezone environment (UTC fallback only) for concrete runs. -/
def tzUTC : TzEnv := ⟨fun _ t => t⟩

example : parse_dt_value tzUTC "20250101T090000Z" none = some ⟨2025, 1, 1, 9, 0, 0⟩ := by decide
example : parse_dt_value tzUTC "notadate" none = none := by decide
example : parse_dt_value tzUTC " 20240229 " none = some ⟨2024, 2, 29, 0, 0, 0⟩ := by decide
example : parse_dt_value tzUTC "20230229" none = none := by decide
example : parse_dt_value tzUTC "2025-01-02T03:04:05+01:00" none = some ⟨2025, 1, 2, 2, 4, 5⟩ := by decide

/-! ### `_parse_rrule` and `parse_vevent` -/

/-- The result dictionary of `_parse_rrule`, restricted to the four keys the
engine consults (other `KEY=VALUE` pairs are stored in the Python dict but
never read; `INTERVAL` is always present after parsing, so the dict is
non-empty and truthy). -/
structure Rrule where
  FREQ : Option String
  INTERVAL : Int
  COUNT : Option Int
  UNTIL : Option String
deriving DecidableEq, Repr

/-- Raw last-wins key/value collection for the four consulted keys. -/
structure RawRule where
  freqV : Option String
  intervalV : Option String
  countV : Option String
  untilV : Option String

/-- `_parse_rrule(line)`: take the text after the first `:` (or the whole
line), split on `;`, keep `KEY=VALUE` pairs (uppercased stripped key, last
occurrence wins), then coerce `INTERVAL` (default 1 on absence or
`ValueError`) and `COUNT` (`None` on absence or `ValueError`). -/
def parse_rrule (line : String) : Rrule :=
  let body := match pySplitFirst ":" line with
    | some p => p.2
    | none => line
  let raw := (splitAllCh ';' body.toList).foldl
    (fun (acc : RawRule) kv =>
      match splitFirstL ['='] kv with
      | none => acc
      | some (k, v) =>
        let key := String.mk ((pyStripL k).map Char.toUpper)
        let vv := String.mk (pyStripL v)
        if key = "FREQ" then { acc with freqV := some vv }
        else if key = "INTERVAL" then { acc with intervalV := some vv }
        else if key = "COUNT" then { acc with countV := some vv }
        else if key = "UNTIL" then { acc with untilV := some vv }
        else acc)
    ⟨none, none, none, none⟩
  { FREQ := raw.freqV
    INTERVAL := (raw.intervalV.bind pyInt).getD 1
    COUNT := raw.countV.bind pyInt
    UNTIL := raw.untilV }

/-- State of `parse_vevent`'s line loop: the TZID (persisting across lines
once set), the last DTSTART value, the last parsed RRULE line. -/
structure PScan where
  tzid : Option String
  dtv : Option String
  rr : Option Rrule
deriving DecidableEq, Repr

/-- The line loop of `parse_vevent`: strip lines, drop blanks; a `DTSTART`
line with no `:` is skipped; `;TZID=` in the head sets the TZID; an `RRULE`
line is parsed by `_parse_rrule`. -/
def scan_vevent (s : String) : PScan :=
  (((pysplitlines s).map pyTrim).filter (fun l => l ≠ "")).foldl
    (fun (acc : PScan) ln =>
      if pyStartsWith "DTSTART" ln then
        match pySplitFirst ":" ln with
        | none => acc
        | some (head, dtval) =>
          let z := match pySplitFirst ";TZID=" head with
            | some p => some p.2
            | none => acc.tzid
          { acc with tzid := z, dtv := some (pyTrim dtval) }
      else if pyStartsWith "RRULE" ln then { acc with rr := some (parse_rrule ln) }
      else acc)
    ⟨none, none, none⟩

/-- `parse_vevent(vevent)`: raises (`none`) when no DTSTART value was found
or it is empty, otherwise parses the start through `_parse_dt_value` (whose
`ValueError` propagates). -/
def parse_vevent (tz : TzEnv) (s : String) : Option (DT × Option Rrule) :=
  let ps := scan_vevent s
  match ps.dtv with
  | none => none
  | some dv =>
    if dv = "" then none
    else (parse_dt_value tz dv ps.tzid).map (fun dt => (dt, ps.rr))

example :
    parse_vevent tzUTC "BEGIN:VEVENT\nDTSTART:20250101T090000Z\nRRULE:FREQ=DAILY;INTERVAL=2\nEND:VEVENT" =
      some (⟨2025, 1, 1, 9, 0, 0⟩, some ⟨some "DAILY", 2, none, none⟩) := by decide
example : parse_vevent tzUTC "RRULE:FREQ=DAILY" = none := by decide

/-! ### The recurrence engine `_next_run_after` -/

/-- Outcome of one call of `_next_run_after`: an occurrence, Python `None`,
or an uncaught exception (`ValueError` from `datetime.replace` on an invalid
yearly target, or from `_parse_dt_value` on a malformed `UNTIL`). -/
inductive RunResult where
  | occ (t : DT)
  | stop
  | err
deriving DecidableEq, Repr

/-- The five frequencies handled by the advancement chain. -/
def knownFreq (freq : String) : Bool :=
  freq = "HOURLY" || freq = "DAILY" || freq = "WEEKLY" || freq = "MONTHLY" || freq = "YEARLY"

/-- One advancement of the candidate for a known frequency:
`timedelta(hours=interval)`, `timedelta(days=interval)`,
`timedelta(weeks=interval)`, `_add_months(candidate, interval)`, or
`candidate.replace(year=candidate.year + interval)`; `none` is an uncaught
`OverflowError`/`ValueError` raised by the arithmetic. -/
def stepOnce (freq : String) (interval : Int) (t : DT) : Option DT :=
  if freq = "HOURLY" then addSeconds t (interval * 3600)
  else if freq = "DAILY" then addDays t interval
  else if freq = "WEEKLY" then addDays t (7 * interval)
  else if freq = "MONTHLY" then add_months t interval
  else if freq = "YEARLY" then replace_year t interval
  else none

/-- Iterated advancement (j successive steps of the candidate). -/
def stepIter (freq : String) (interval : Int) : Nat → DT → Option DT
  | 0, t => some t
  | j + 1, t =>
    match stepOnce freq interval t with
    | some t2 => stepIter freq interval j t2
    | none => none

/-- `idx >= count_limit` (`count_limit is not None and ...`). -/
def countHit (countLimit : Option Int) (idx : Nat) : Bool :=
  match countLimit with
  | some n => n ≤ (idx : Int)
  | none => false

/-- `until_utc and candidate > until_utc`. -/
def untilHit (untilU : Option DT) (c : DT) : Bool :=
  match untilU with
  | some u => u.key < c.key
  | none => false

/-- The `while candidate <= after` loop of `_next_run_after`, with fuel: per
iteration the counter is incremented, the candidate advanced by frequency (an
unrecognised frequency returns `None` before advancing; an `OverflowError` or
`ValueError` while advancing escapes), then the COUNT and UNTIL cut-offs are
tested.  Outer
`none` means the loop did not finish within `fuel` iterations. -/
def runLoop (freq : String) (interval : Int) (countLimit : Option Int)
    (untilU : Option DT) (after : DT) : Nat → DT → Nat → Option RunResult
  | 0, _, _ => none
  | fuel + 1, candidate, idx =>
    if candidate.key ≤ after.key then
      if knownFreq freq then
        match stepOnce freq interval candidate with
        | none => some .err
        | some c2 =>
          if countHit countLimit (idx + 1) then some .stop
          else if untilHit untilU c2 then some .stop
          else runLoop freq interval countLimit untilU after fuel c2 (idx + 1)
      else some .stop
    else some (.occ candidate)

/-- `(rrule.get("FREQ") or "DAILY").upper()`: an absent or empty value
defaults to DAILY, then ASCII-uppercase. -/
def freqOf (r : Rrule) : String :=
  let f := r.FREQ.getD ""
  String.mk ((if f = "" then "DAILY" else f).toList.map Char.toUpper)

/-- `int(rrule.get("INTERVAL") or 1)`: a zero interval (falsy) becomes 1. -/
def intervalOf (r : Rrule) : Int :=
  if r.INTERVAL = 0 then 1 else r.INTERVAL

/-- `_parse_dt_value(until_raw, None) if until_raw else None`: outer `none`
is the uncaught `ValueError`, inner `none` the absent/empty (falsy) UNTIL. -/
def until_of (tz : TzEnv) (r : Rrule) : Option (Option DT) :=
  match r.UNTIL with
  | none => some none
  | some s => if s = "" then some none else (parse_dt_value tz s none).map some

/-- `_next_run_after(start_utc, rrule, after)` with fuel for the loop.  The
`after` argument is always aware in the scheduler's flow, so the
naive-`after` normalisation line is invisible in the model. -/
def next_run_after (tz : TzEnv) (start : DT) (rr : Option Rrule) (after : DT)
    (fuel : Nat) : Option RunResult :=
  match rr with
  | none => some (if after.key < start.key then .occ start else .stop)
  | some r =>
    match until_of tz r with
    | none => some .err
    | some uArg => runLoop (freqOf r) (intervalOf r) r.COUNT uArg after fuel start 0

example :
    next_run_after tzUTC ⟨2025, 1, 1, 9, 0, 0⟩ (some ⟨some "DAILY", 1, none, none⟩)
      ⟨2025, 1, 1, 9, 0, 0⟩ 5 = some (.occ ⟨2025, 1, 2, 9, 0, 0⟩) := by decide
example :
    next_run_after tzUTC ⟨2024, 1, 31, 0, 0, 0⟩ (some ⟨some "MONTHLY", 1, none, none⟩)
      ⟨2024, 2, 29, 0, 0, 0⟩ 5 = some (.occ ⟨2024, 3, 29, 0, 0, 0⟩) := by decide
example :
    next_run_after tzUTC ⟨2024, 2, 29, 0, 0, 0⟩ (some ⟨some "YEARLY", 1, none, none⟩)
      ⟨2024, 2, 29, 0, 0, 0⟩ 5 = some .err := by decide

/-! ### The scheduler tick `TaskScheduler._tick`

One task record, with the fields the tick reads (`t.get(...)` defaults are
folded into the field types).  `last_run_at` is persisted as
`next_run.isoformat()` and read back with `datetime.fromisoformat`; that
round trip is the identity on aware UTC datetimes, so the field is modelled
as the datetime itself. -/

structure Task where
  session_id : String
  prompt : String
  vevent : String
  last_run_at : Option DT
  completed : Bool
  deleted : Bool
deriving DecidableEq, Repr

/-- The awaited injection callback: from its current external state and the
`(session_id, prompt)` arguments it produces a new external state and either
returns (`true`) or raises (`false`).  The status-sink calls surrounding it
(`mark_running_scheduled_task`, `clear_tool_status`, the session-id setters)
only update an in-process status dictionary and never raise; they are
invisible to the task record and are modelled as no-ops. -/
structure Inject (σ : Type) where
  run : σ → String → String → σ × Bool

/-- Per-task outcome inside the tick loop: the updated record together with
whether this task set `changed`, or an exception escaping the per-task body
(which aborts the whole tick before `save_tasks`). -/
inductive StepOut (σ : Type) where
  | res (t : Task) (changed : Bool) (s : σ)
  | boom (s : σ)
deriving DecidableEq

/-- `after = last_run or (start_utc - timedelta(seconds=1))`: the subtraction
is only evaluated when there is no watermark (Python's short-circuit `or`)
and raises `OverflowError` (`none`) at `datetime.min`. -/
def afterOf (t : Task) (start : DT) : Option DT :=
  match t.last_run_at with
  | some v => some v
  | none => addSeconds start (-1)

/-- The body of the `for t in tasks` loop of `_tick` for one task:
skip deleted tasks and unparsable triggers; skip completed one-shots;
compute the next occurrence from the watermark; on `None` defensively
complete a one-shot that has already run; when due (`now >= next_run`)
invoke the callback and, only on success, record `last_run_at = next_run`
and complete a one-shot.  An `OverflowError` from the baseline subtraction
or an exception escaping `_next_run_after` aborts the whole tick (`boom`);
`none` = the model's loop fuel ran out. -/
def tick_step {σ : Type} (fuel : Nat) (tz : TzEnv) (now : DT) (inj : Inject σ)
    (s : σ) (t : Task) : Option (StepOut σ) :=
  if t.deleted then some (.res t false s) else
  match parse_vevent tz t.vevent with
  | none => some (.res t false s)
  | some (start, rr) =>
    if rr.isNone && t.completed then some (.res t false s)
    else
      match afterOf t start with
      | none => some (.boom s)
      | some aft =>
      match next_run_after tz start rr aft fuel with
      | none => none
      | some .err => some (.boom s)
      | some .stop =>
        if rr.isNone && !t.completed && t.last_run_at.isSome then
          some (.res { t with completed := true } true s)
        else some (.res t false s)
      | some (.occ nxt) =>
        if nxt.key ≤ now.key then
          let out := inj.run s (pyTrim t.session_id) t.prompt
          if out.2 then
            some (.res { t with last_run_at := some nxt,
                                completed := if rr.isNone then true else t.completed }
                   true out.1)
          else some (.res t false out.1)
        else some (.res t false s)

/-- Result of a whole tick: the updated list with the final `changed` flag
(`save_tasks` runs exactly when it is true), or `halted` when an exception
escaped the per-task loop (no save; in-memory mutations are discarded). -/
inductive TickRes (σ : Type) where
  | done (tasks : List Task) (changed : Bool) (s : σ)
  | halted (s : σ)
deriving DecidableEq

/-- Prepend an already-processed task to a tick continuation. -/
def consRes {σ : Type} (t2 : Task) : Option (TickRes σ) → Option (TickRes σ)
  | none => none
  | some (.done ts c s) => some (.done (t2 :: ts) c s)
  | some (.halted s) => some (.halted s)

/-- The `for` loop of `_tick` over the task list, threading the callback
state and the `changed` flag. -/
def tick_list {σ : Type} (fuel : Nat) (tz : TzEnv) (now : DT) (inj : Inject σ) :
    σ → Bool → List Task → Option (TickRes σ)
  | s, ch, [] => some (.done [] ch s)
  | s, ch, t :: rest =>
    match tick_step fuel tz now inj s t with
    | none => none
    | some (.boom s2) => some (.halted s2)
    | some (.res t2 d s2) => consRes t2 (tick_list fuel tz now inj s2 (ch || d) rest)

/-- `TaskScheduler._tick` on loaded tasks at wall-clock `now`. -/
def tick {σ : Type} (fuel : Nat) (tz : TzEnv) (now : DT) (inj : Inject σ)
    (s : σ) (tasks : List Task) : Option (TickRes σ) :=
  tick_list fuel tz now inj s false tasks

/-! ### Loop lemmas -/

/-- Any occurrence the loop returns is strictly after the baseline: the loop
only exits when `candidate > after`. -/
theorem runLoop_occ_gt {freq : String} {interval : Int} {cl : Option Int}
    {uU : Option DT} {after : DT} :
    ∀ {fuel cand idx c}, runLoop freq interval cl uU after fuel cand idx = some (.occ c) →
      after.key < c.key := by
  intro fuel
  induction fuel with
  | zero => intro cand idx c h; simp [runLoop] at h
  | succ f ih =>
    intro cand idx c h
    simp only [runLoop] at h
    split at h
    · split at h
      · split at h
        · exact absurd h (by simp)
        · split at h
          · exact absurd h (by simp)
          · split at h
            · exact absurd h (by simp)
            · exact ih h
      · exact absurd h (by simp)
    · rename_i hgt
      have hc : cand = c := by simpa using h
      subst hc
      omega

/-- With an UNTIL bound, every occurrence produced by an advancement step is
at most the bound (only the entry candidate escapes the check). -/
theorem runLoop_occ_until_or {freq : String} {interval : Int} {cl : Option Int}
    {u after : DT} :
    ∀ {fuel cand idx c}, runLoop freq interval cl (some u) after fuel cand idx = some (.occ c) →
      c.key ≤ u.key ∨ c = cand := by
  intro fuel
  induction fuel with
  | zero => intro cand idx c h; simp [runLoop] at h
  | succ f ih =>
    intro cand idx c h
    simp only [runLoop] at h
    split at h
    · split at h
      · split at h
        · exact absurd h (by simp)
        · rename_i c2 heq
          split at h
          · exact absurd h (by simp)
          · split at h
            · exact absurd h (by simp)
            · rename_i hcut
              have hle : c2.key ≤ u.key := by
                simp [untilHit] at hcut; omega
              rcases ih h with h1 | h2
              · exact Or.inl h1
              · exact Or.inl (h2 ▸ hle)
      · exact absurd h (by simp)
    · have hc : cand = c := by simpa using h
      exact Or.inr hc.symm

/-- With a COUNT limit, any returned occurrence is one of the first
candidates: it is reached by `j` advancement steps with `idx + j` still below
the limit (or no step at all). -/
theorem runLoop_occ_iter {freq : String} {interval : Int} {uU : Option DT}
    {after : DT} {N : Int} :
    ∀ {fuel cand idx c}, runLoop freq interval (some N) uU after fuel cand idx = some (.occ c) →
      ∃ j, stepIter freq interval j cand = some c ∧ (j = 0 ∨ (idx : Int) + j < N) := by
  intro fuel
  induction fuel with
  | zero => intro cand idx c h; simp [runLoop] at h
  | succ f ih =>
    intro cand idx c h
    simp only [runLoop] at h
    split at h
    · split at h
      · split at h
        · exact absurd h (by simp)
        · rename_i c2 heq
          split at h
          · exact absurd h (by simp)
          · rename_i hcnt
            have hidx : (idx : Int) + 1 < N := by
              simp [countHit] at hcnt; omega
            split at h
            · exact absurd h (by simp)
            · rcases ih h with ⟨j, hj, hcase⟩
              refine ⟨j + 1, ?_, ?_⟩
              · simpa [stepIter, heq] using hj
              · right
                rcases hcase with h0 | hlt
                · subst h0; omega
                · push_cast at hlt ⊢; omega
      · exact absurd h (by simp)
    · have hc : cand = c := by simpa using h
      exact ⟨0, by simp [stepIter, hc], Or.inl rfl⟩

/-! ### Calendar arithmetic: validity and strict monotonicity of successful
advancement steps -/

theorem dim_bounds (y m : Nat) : 28 ≤ dim y m ∧ dim y m ≤ 31 := by
  unfold dim; split_ifs <;> omega

theorem succDay_sec (t : DT) : (succDay t).sec = t.sec := by
  unfold succDay DT.sec; split_ifs <;> rfl

theorem succDay_dk (t : DT) (hm : t.m ≤ 12) (hd : t.d ≤ 31) :
    t.dk < (succDay t).dk := by
  unfold succDay DT.dk
  split_ifs <;> dsimp only <;> omega

theorem succDay_fields (t : DT) (h : t.Fields) : (succDay t).Fields := by
  obtain ⟨hm1, hm2, hd1, hd2, hhh, hmi, hss⟩ := h
  unfold succDay
  split_ifs with h1 h2
  · refine ⟨hm1, hm2, ?_, h1, hhh, hmi, hss⟩
    show 1 ≤ t.d + 1
    omega
  · have h28 := (dim_bounds t.y (t.m + 1)).1
    refine ⟨?_, ?_, ?_, ?_, hhh, hmi, hss⟩
    · show 1 ≤ t.m + 1
      omega
    · show t.m + 1 ≤ 12
      omega
    · show (1 : Nat) ≤ 1
      omega
    · show (1 : Nat) ≤ dim t.y (t.m + 1)
      omega
  · have h28 := (dim_bounds (t.y + 1) 1).1
    refine ⟨?_, ?_, ?_, ?_, hhh, hmi, hss⟩
    · show (1 : Nat) ≤ 1
      omega
    · show (1 : Nat) ≤ 12
      omega
    · show (1 : Nat) ≤ 1
      omega
    · show (1 : Nat) ≤ dim (t.y + 1) 1
      omega

theorem addDaysNat_spec :
    ∀ (n : Nat) (t : DT), t.Fields →
      (addDaysNat t n).Fields ∧ t.dk + n ≤ (addDaysNat t n).dk ∧
        (addDaysNat t n).sec = t.sec := by
  intro n
  induction n with
  | zero => intro t h; exact ⟨h, by simp [addDaysNat], by simp [addDaysNat]⟩
  | succ k ih =>
    intro t h
    have hv := succDay_fields t h
    have hd31 : t.d ≤ 31 := le_trans h.2.2.2.1 (dim_bounds t.y t.m).2
    have hdk := succDay_dk t h.2.1 hd31
    obtain ⟨a, b, c⟩ := ih (succDay t) hv
    have he : addDaysNat t (k + 1) = addDaysNat (succDay t) k := rfl
    refine ⟨he ▸ a, ?_, ?_⟩
    · rw [he]; omega
    · rw [he, c, succDay_sec]

theorem withSec_spec (t : DT) (r : Nat) (hr : r < 86400) (h : t.Fields) :
    (withSec t r).Fields ∧ (withSec t r).dk = t.dk ∧ (withSec t r).sec = r := by
  obtain ⟨hm1, hm2, hd1, hd2, _, _, _⟩ := h
  refine ⟨⟨hm1, hm2, hd1, hd2, ?_, ?_, ?_⟩, rfl, ?_⟩
  · show r / 3600 ≤ 23
    omega
  · show r % 3600 / 60 ≤ 59
    omega
  · show r % 60 ≤ 59
    omega
  · show r / 3600 * 3600 + r % 3600 / 60 * 60 + r % 60 = r
    omega

/-- A successful `+ timedelta(days=k)` (k ≥ 1) lands strictly later, inside
the valid range. -/
theorem addDays_mono (t : DT) (k : Int) (hk : 1 ≤ k) (hf : t.Fields) (t2 : DT)
    (h : addDays t k = some t2) : t2.Valid ∧ t.key < t2.key := by
  simp only [addDays] at h
  rw [if_pos (by omega : (0 : Int) ≤ k)] at h
  split_ifs at h with hy
  · obtain ⟨hfr, hdk, hsec⟩ := addDaysNat_spec k.toNat t hf
    have ht2 : addDaysNat t k.toNat = t2 := by simpa using h
    refine ⟨⟨ht2 ▸ hy.1, ht2 ▸ hy.2, ht2 ▸ hfr⟩, ?_⟩
    rw [← ht2]
    unfold DT.key
    have h1 : 1 ≤ k.toNat := by omega
    omega

/-- A successful `+ timedelta(seconds=k)` (k ≥ 1) lands strictly later,
inside the valid range. -/
theorem addSeconds_mono (t : DT) (k : Int) (hk : 1 ≤ k) (hf : t.Fields) (t2 : DT)
    (h : addSeconds t k = some t2) : t2.Valid ∧ t.key < t2.key := by
  simp only [addSeconds, addDays] at h
  rw [if_pos (by omega : (0 : Int) ≤ ((t.sec : Int) + k) / 86400)] at h
  obtain ⟨hfw, hdkw, hsecw⟩ :=
    withSec_spec t ((((t.sec : Int) + k) % 86400)).toNat (by omega) hf
  obtain ⟨hfr, hdk, hsec⟩ :=
    addDaysNat_spec ((((t.sec : Int) + k) / 86400)).toNat _ hfw
  split_ifs at h with hy
  · have ht2 : addDaysNat (withSec t ((((t.sec : Int) + k) % 86400)).toNat)
        ((((t.sec : Int) + k) / 86400)).toNat = t2 := by simpa using h
    refine ⟨⟨ht2 ▸ hy.1, ht2 ▸ hy.2, ht2 ▸ hfr⟩, ?_⟩
    rw [← ht2]
    unfold DT.key
    rw [hsec, hsecw]
    rw [hdkw] at hdk
    omega

/-- A successful `_add_months` with months ≥ 1 lands strictly later, inside
the valid range. -/
theorem add_months_mono (t : DT) (k : Int) (hk : 1 ≤ k) (hv : t.Valid) (t2 : DT)
    (h : add_months t k = some t2) : t2.Valid ∧ t.key < t2.key := by
  obtain ⟨hy1, hy9, hm1, hm2, hd1, hd2, hhh, hmi, hss⟩ := hv
  have hd31 : t.d ≤ 31 := le_trans hd2 (dim_bounds t.y t.m).2
  have hq0 : 0 ≤ ((t.m : Int) - 1 + k) / 12 := by omega
  have heq : add_months t k =
      mkDT? ((t.y : Int) + ((t.m : Int) - 1 + k) / 12).toNat
        (((t.m : Int) - 1 + k) % 12 + 1).toNat
        (min t.d (dim ((t.y : Int) + ((t.m : Int) - 1 + k) / 12).toNat
          (((t.m : Int) - 1 + k) % 12 + 1).toNat))
        t.hh t.mi t.ss := rfl
  rw [heq] at h
  set y2 : Nat := ((t.y : Int) + ((t.m : Int) - 1 + k) / 12).toNat with hy2
  set m2 : Nat := (((t.m : Int) - 1 + k) % 12 + 1).toNat with hm2e
  unfold mkDT? at h
  split_ifs at h with hc
  · have ht2 : (⟨y2, m2, min t.d (dim y2 m2), t.hh, t.mi, t.ss⟩ : DT) = t2 := by
      simpa using h
    have hyy : t.y ≤ y2 := by omega
    have h12 : 12 * y2 + m2 = 12 * t.y + t.m + k.toNat := by omega
    have hmono : 13 * t.y + t.m + 1 ≤ 13 * y2 + m2 := by omega
    refine ⟨?_, ?_⟩
    · rw [← ht2]; exact hc
    · rw [← ht2]
      unfold DT.key DT.dk DT.sec
      dsimp only
      omega

/-- A successful `replace(year=year+k)` with k ≥ 1 lands strictly later,
inside the valid range. -/
theorem replace_year_mono (t : DT) (k : Int) (hk : 1 ≤ k) (hv : t.Valid) (t2 : DT)
    (h : replace_year t k = some t2) : t2.Valid ∧ t.key < t2.key := by
  obtain ⟨hy1, hy9, hf⟩ := hv
  unfold replace_year mkDT? at h
  split_ifs at h with hc
  · have ht2 : (⟨((t.y : Int) + k).toNat, t.m, t.d, t.hh, t.mi, t.ss⟩ : DT) = t2 := by
      simpa using h
    refine ⟨by rw [← ht2]; exact hc, ?_⟩
    rw [← ht2]
    unfold DT.key DT.dk DT.sec
    dsimp only
    have hyy : t.y + 1 ≤ ((t.y : Int) + k).toNat := by omega
    omega

/-! ### Step monotonicity and the COUNT cut-off -/

/-- Whenever one advancement step succeeds on an in-range instant, the result
is strictly later and in range (the step itself may raise — `none` — which
the loop surfaces as an escaping exception). -/
def StepMono (freq : String) (interval : Int) : Prop :=
  ∀ t t2, t.Valid → stepOnce freq interval t = some t2 → t2.Valid ∧ t.key < t2.key

theorem stepOnce_mono (freq : String) (interval : Int) (hint : 1 ≤ interval) :
    StepMono freq interval := by
  intro t t2 hv hstep
  unfold stepOnce at hstep
  split_ifs at hstep
  · exact addSeconds_mono t (interval * 3600) (by omega) hv.2.2 t2 hstep
  · exact addDays_mono t interval hint hv.2.2 t2 hstep
  · exact addDays_mono t (7 * interval) (by omega) hv.2.2 t2 hstep
  · exact add_months_mono t interval hint hv t2 hstep
  · exact replace_year_mono t interval hint hv t2 hstep

theorem stepIter_mono {freq : String} {interval : Int} (hmono : StepMono freq interval) :
    ∀ (j : Nat) (t c : DT), t.Valid → stepIter freq interval j t = some c →
      c.Valid ∧ t.key ≤ c.key := by
  intro j
  induction j with
  | zero =>
    intro t c hv h
    have ht : t = c := by simpa [stepIter] using h
    subst ht
    exact ⟨hv, le_refl _⟩
  | succ m ih =>
    intro t c hv h
    cases hs : stepOnce freq interval t with
    | none => exact absurd h (by simp [stepIter, hs])
    | some t2 =>
      have hrest : stepIter freq interval m t2 = some c := by
        simpa [stepIter, hs] using h
      obtain ⟨hv2, hk2⟩ := hmono t t2 hv hs
      obtain ⟨hvc, hkc⟩ := ih t2 c hv2 hrest
      exact ⟨hvc, le_trans (le_of_lt hk2) hkc⟩

/-- Once the baseline has reached the last COUNT-admissible candidate, the
loop never yields another occurrence: it runs into the counter (or an
earlier UNTIL) cut-off and returns `None`, unless the advancement computed
before the counter check overflows the datetime range, in which case the
exception escapes. -/
theorem runLoop_count_terminal {freq : String} {interval : Int} {uU : Option DT}
    {after : DT} (hmono : StepMono freq interval) (N : Nat) :
    ∀ (fuel : Nat) (cand : DT) (idx : Nat) (cEnd : DT), cand.Valid → idx < N →
      N - idx ≤ fuel → stepIter freq interval (N - 1 - idx) cand = some cEnd →
      cEnd.key ≤ after.key →
      (runLoop freq interval (some (N : Int)) uU after fuel cand idx = some .stop ∨
       runLoop freq interval (some (N : Int)) uU after fuel cand idx = some .err) := by
  intro fuel
  induction fuel with
  | zero => intro cand idx cEnd _ hidx hfuel _ _; omega
  | succ f ih =>
    intro cand idx cEnd hP hidx hfuel hE hle
    have hchain := stepIter_mono hmono (N - 1 - idx) cand cEnd hP hE
    have hcand_le : cand.key ≤ after.key := le_trans hchain.2 hle
    simp only [runLoop]
    rw [if_pos hcand_le]
    by_cases hkf : knownFreq freq
    · rw [if_pos hkf]
      cases hNi : N - 1 - idx with
      | zero =>
        cases hs : stepOnce freq interval cand with
        | none =>
          right
          simp only [hs]
        | some c2 =>
          left
          simp only [hs]
          have hcnt : countHit (some (N : Int)) (idx + 1) = true := by
            simp [countHit]; omega
          rw [if_pos hcnt]
      | succ m =>
        rw [hNi] at hE
        cases hs : stepOnce freq interval cand with
        | none => exact absurd hE (by simp [stepIter, hs])
        | some c2 =>
          have hrest : stepIter freq interval m c2 = some cEnd := by
            simpa [stepIter, hs] using hE
          simp only [hs]
          by_cases hcnt : countHit (some (N : Int)) (idx + 1)
          · left
            rw [if_pos hcnt]
          · rw [if_neg hcnt]
            have hidx2 : idx + 1 < N := by
              simp [countHit] at hcnt; omega
            by_cases hu2 : untilHit uU c2
            · left
              rw [if_pos hu2]
            · rw [if_neg hu2]
              have hv2 := (hmono cand c2 hP hs).1
              refine ih c2 (idx + 1) cEnd hv2 hidx2 (by omega) ?_ hle
              rw [show N - 1 - (idx + 1) = m from by omega]
              exact hrest
    · left
      rw [if_neg hkf]

/-- `_next_run_after` never returns an occurrence at or before `after`. -/
theorem next_run_after_occ_gt {tz : TzEnv} {start : DT} {rr : Option Rrule}
    {after : DT} {fuel : Nat} {c : DT}
    (h : next_run_after tz start rr after fuel = some (.occ c)) :
    after.key < c.key := by
  cases rr with
  | none =>
    simp only [next_run_after] at h
    split at h
    · have hc : start = c := by simpa using h
      subst hc; omega
    · exact absurd h (by simp)
  | some r =>
    simp only [next_run_after] at h
    split at h
    · exact absurd h (by simp)
    · exact runLoop_occ_gt h

/-! ### Claim theorems -/

/-- C8: for a trigger without a recurrence rule, `next_occurrence` returns
the start instant exactly when the start is strictly greater than `after`,
and `None` otherwise; in particular every call with `after ≥ start` returns
`None`, so the start is yielded at most once as the watermark advances. -/
theorem c8_one_shot (tz : TzEnv) (start after : DT) (fuel : Nat) :
    (∀ t, next_run_after tz start none after fuel = some (.occ t) ↔
      (t = start ∧ after.key < start.key)) ∧
    (start.key ≤ after.key → next_run_after tz start none after fuel = some .stop) := by
  constructor
  · intro t
    constructor
    · intro h
      simp only [next_run_after] at h
      split at h
      · rename_i hlt
        have hst : start = t := by simpa using h
        exact ⟨hst.symm, hlt⟩
      · exact absurd h (by simp)
    · rintro ⟨rfl, hlt⟩
      simp only [next_run_after]
      rw [if_pos hlt]
  · intro hle
    simp only [next_run_after]
    rw [if_neg (by omega)]

theorem c8_one_shot_witness :
    next_run_after tzUTC ⟨2025, 1, 1, 9, 0, 0⟩ none ⟨2025, 1, 1, 9, 0, 0⟩ 1 =
      some RunResult.stop :=
  (c8_one_shot tzUTC ⟨2025, 1, 1, 9, 0, 0⟩ ⟨2025, 1, 1, 9, 0, 0⟩ 1).2 (by decide)

/-- C10: an RRULE whose FREQ key is absent or empty is not rejected: the
frequency resolves to DAILY, the engine behaves exactly as with
`FREQ=DAILY`, and the daily advancement moves the candidate by INTERVAL
days. -/
theorem c10_missing_freq_daily (r : Rrule) (hf : r.FREQ = none ∨ r.FREQ = some "") :
    freqOf r = "DAILY" ∧
    (∀ (c : DT) (interval : Int), stepOnce "DAILY" interval c = addDays c interval) ∧
    (∀ (tz : TzEnv) (start after : DT) (fuel : Nat),
      next_run_after tz start (some r) after fuel =
        next_run_after tz start (some { r with FREQ := some "DAILY" }) after fuel) := by
  have hfd : freqOf r = "DAILY" := by
    rcases hf with h | h <;> simp only [freqOf, h] <;> rfl
  refine ⟨hfd, fun c interval => rfl, ?_⟩
  intro tz start after fuel
  simp only [next_run_after]
  rw [hfd]
  rfl

theorem c10_missing_freq_daily_witness :
    freqOf ⟨none, 1, none, none⟩ = "DAILY" ∧
    (∀ (c : DT) (interval : Int), stepOnce "DAILY" interval c = addDays c interval) ∧
    (∀ (tz : TzEnv) (start after : DT) (fuel : Nat),
      next_run_after tz start (some ⟨none, 1, none, none⟩) after fuel =
        next_run_after tz start
          (some { (⟨none, 1, none, none⟩ : Rrule) with FREQ := some "DAILY" }) after fuel) :=
  c10_missing_freq_daily ⟨none, 1, none, none⟩ (Or.inl rfl)

/-- C6 counterexample: with the unrecognised frequency `BOGUS` and a start
still in the future (`after < start`), `_next_run_after` does NOT return
`None`: the `while` loop never runs, so the start itself is returned as an
occurrence — refuting "returns None for every instant after". -/
theorem c6_unknown_freq_counterexample :
    knownFreq (freqOf ⟨some "BOGUS", 1, none, none⟩) = false ∧
    next_run_after tzUTC ⟨2025, 1, 2, 0, 0, 0⟩ (some ⟨some "BOGUS", 1, none, none⟩)
      ⟨2025, 1, 1, 0, 0, 0⟩ 1 = some (.occ ⟨2025, 1, 2, 0, 0, 0⟩) ∧
    (RunResult.occ ⟨2025, 1, 2, 0, 0, 0⟩ ≠ RunResult.stop) := by decide

/-- C6 (amended): for an unrecognised FREQ (and a resolvable UNTIL field)
the function returns `None` on the first loop iteration — without ever
advancing — whenever `start ≤ after`; but when `start > after` the start
itself is returned as an occurrence without the frequency being consulted.
On a `None` result the tick leaves a recurring task's record unchanged
(recurring tasks are not marked completed). -/
theorem c6_unknown_freq_amended (tz : TzEnv) (r : Rrule) (fuel : Nat)
    (hfuel : 1 ≤ fuel) (hk : knownFreq (freqOf r) = false)
    (uArg : Option DT) (hu : until_of tz r = some uArg) :
    (∀ (start2 after2 : DT),
      next_run_after tz start2 (some r) after2 fuel =
        some (if after2.key < start2.key then .occ start2 else .stop)) ∧
    (∀ {σ : Type} (inj : Inject σ) (s : σ) (now : DT) (t : Task) (start2 aft : DT),
      t.deleted = false → parse_vevent tz t.vevent = some (start2, some r) →
      afterOf t start2 = some aft → start2.key ≤ aft.key →
      tick_step fuel tz now inj s t = some (.res t false s)) := by
  have hmain : ∀ (start2 after2 : DT),
      next_run_after tz start2 (some r) after2 fuel =
        some (if after2.key < start2.key then .occ start2 else .stop) := by
    intro start2 after2
    simp only [next_run_after, hu]
    cases fuel with
    | zero => omega
    | succ f =>
      by_cases hc : start2.key ≤ after2.key
      · simp only [runLoop]
        rw [if_pos hc, if_neg (by rw [hk]; simp), if_neg (by omega)]
      · simp only [runLoop]
        rw [if_neg hc, if_pos (by omega)]
  refine ⟨hmain, ?_⟩
  intro σ inj s now t start2 aft hdel hparse haft hadv
  simp only [tick_step, hdel, hparse, haft]
  have hres := hmain start2 aft
  rw [if_neg (by omega)] at hres
  simp only [hres]
  rfl

theorem c6_unknown_freq_amended_witness :
    next_run_after tzUTC ⟨2025, 1, 1, 0, 0, 0⟩ (some ⟨some "BOGUS", 1, none, none⟩)
      ⟨2025, 1, 5, 0, 0, 0⟩ 1 = some RunResult.stop := by
  have h := (c6_unknown_freq_amended tzUTC ⟨some "BOGUS", 1, none, none⟩ 1
    (by decide) (by decide) none (by decide)).1 ⟨2025, 1, 1, 0, 0, 0⟩ ⟨2025, 1, 5, 0, 0, 0⟩
  rw [if_neg (by decide)] at h
  exact h

/-- C1 counterexample: with `UNTIL = 20250102T000000Z` and a daily rule from
`20250101T000000Z`, evaluating after the start yields the occurrence exactly
AT the UNTIL instant (the code only cuts candidates strictly beyond the
bound), refuting "no occurrence at or after T". -/
theorem c1_until_counterexample :
    parse_dt_value tzUTC "20250102T000000Z" none = some ⟨2025, 1, 2, 0, 0, 0⟩ ∧
    next_run_after tzUTC ⟨2025, 1, 1, 0, 0, 0⟩
      (some ⟨some "DAILY", 1, none, some "20250102T000000Z"⟩)
      ⟨2025, 1, 1, 0, 0, 0⟩ 3 = some (.occ ⟨2025, 1, 2, 0, 0, 0⟩) := by decide

/-- C1 (amended): for a recurring trigger with an UNTIL bound `u`, whenever
an advancement is required (`start ≤ after`), any occurrence returned is at
most `u`: candidates strictly after `u` yield `None`, while an occurrence
exactly at `u` is still returned (and a start beyond `after` bypasses the
UNTIL check entirely). -/
theorem c1_until_amended (tz : TzEnv) (start after : DT) (r : Rrule) (fuel : Nat)
    (sU : String) (hU : r.UNTIL = some sU) (hne : sU ≠ "")
    (u : DT) (hp : parse_dt_value tz sU none = some u)
    (hadv : start.key ≤ after.key) (c : DT)
    (hrun : next_run_after tz start (some r) after fuel = some (.occ c)) :
    c.key ≤ u.key := by
  have hgt := next_run_after_occ_gt hrun
  simp only [next_run_after, until_of, hU] at hrun
  rw [if_neg hne, hp] at hrun
  simp only [Option.map_some'] at hrun
  rcases runLoop_occ_until_or hrun with h | h
  · exact h
  · subst h
    omega

theorem c1_until_amended_witness :
    (⟨2025, 1, 2, 0, 0, 0⟩ : DT).key ≤ (⟨2025, 1, 10, 0, 0, 0⟩ : DT).key :=
  c1_until_amended tzUTC ⟨2025, 1, 1, 0, 0, 0⟩ ⟨2025, 1, 1, 0, 0, 0⟩
    ⟨some "DAILY", 1, none, some "20250110T000000Z"⟩ 3 "20250110T000000Z" rfl
    (by decide) ⟨2025, 1, 10, 0, 0, 0⟩ (by decide) (by decide)
    ⟨2025, 1, 2, 0, 0, 0⟩ (by decide)

/-- C3: the monthly advancement clamps the day-of-month (Jan 31 2024 yields
Feb 29 2024 then Mar 29 2024, never Mar 31), but the yearly advancement does
NOT clamp: from a Feb 29 start, `candidate.replace(year=...)` raises
`ValueError` on the non-leap target year instead of clamping to Feb 28 —
the uncaught exception escapes `_next_run_after` (and would abort the whole
tick), contradicting the claimed clamping for yearly advancement. -/
theorem c3_clamp_behavior :
    next_run_after tzUTC ⟨2024, 1, 31, 0, 0, 0⟩ (some ⟨some "MONTHLY", 1, none, none⟩)
      ⟨2024, 1, 31, 0, 0, 0⟩ 4 = some (.occ ⟨2024, 2, 29, 0, 0, 0⟩) ∧
    next_run_after tzUTC ⟨2024, 1, 31, 0, 0, 0⟩ (some ⟨some "MONTHLY", 1, none, none⟩)
      ⟨2024, 2, 29, 0, 0, 0⟩ 4 = some (.occ ⟨2024, 3, 29, 0, 0, 0⟩) ∧
    add_months ⟨2024, 1, 31, 0, 0, 0⟩ 1 = some ⟨2024, 2, 29, 0, 0, 0⟩ ∧
    replace_year ⟨2024, 2, 29, 0, 0, 0⟩ 1 = none ∧
    next_run_after tzUTC ⟨2024, 2, 29, 0, 0, 0⟩ (some ⟨some "YEARLY", 1, none, none⟩)
      ⟨2024, 2, 29, 0, 0, 0⟩ 4 = some RunResult.err := by decide

/-- C2 counterexample: the "permanently None" half of the claim fails at
the datetime range boundary.  With the reachable trigger
`DTSTART:99991231T000000Z`, `FREQ=DAILY;INTERVAL=1;COUNT=1` and the
watermark at the start (the state right after the single occurrence fires),
the advancement computed before the COUNT check is `9999-12-31 + 1 day`,
which overflows `datetime.max`: `_next_run_after` raises `OverflowError`
(aborting the tick) instead of returning `None`. -/
theorem c2_count_overflow_counterexample :
    parse_dt_value tzUTC "99991231T000000Z" none = some ⟨9999, 12, 31, 0, 0, 0⟩ ∧
    next_run_after tzUTC ⟨9999, 12, 31, 0, 0, 0⟩
      (some ⟨some "DAILY", 1, some 1, none⟩)
      ⟨9999, 12, 31, 0, 0, 0⟩ 2 = some RunResult.err ∧
    RunResult.err ≠ RunResult.stop := by decide

/-- C2 (amended): with `COUNT = N` (N positive) and `INTERVAL ≥ 1`, every
occurrence the engine can ever return is one of the N candidates
`start, step(start), ..., step^(N-1)(start)` — so at most N distinct
occurrences are deliverable in total — and once the watermark has reached
the last of them (the counter would exceed N), the engine never yields an
occurrence again: it returns `None`, unless the advancement computed before
the COUNT check overflows the year-9999 datetime range, in which case the
call raises `OverflowError` instead of returning `None` (given enough loop
fuel either way). -/
theorem c2_count_bound (tz : TzEnv) (start : DT) (r : Rrule) (n : Nat)
    (hn : 1 ≤ n) (hcount : r.COUNT = some (n : Int))
    (hval : start.Valid) (hint : 1 ≤ intervalOf r)
    (uArg : Option DT) (hu : until_of tz r = some uArg) :
    (∀ (after : DT) (fuel : Nat) (c : DT),
      next_run_after tz start (some r) after fuel = some (.occ c) →
      ∃ j, j < n ∧ stepIter (freqOf r) (intervalOf r) j start = some c) ∧
    (∀ (after : DT) (fuel : Nat) (cEnd : DT), n ≤ fuel →
      stepIter (freqOf r) (intervalOf r) (n - 1) start = some cEnd →
      cEnd.key ≤ after.key →
      (next_run_after tz start (some r) after fuel = some .stop ∨
       next_run_after tz start (some r) after fuel = some .err)) := by
  constructor
  · intro after fuel c h
    simp only [next_run_after, hu, hcount] at h
    obtain ⟨j, hj, hcase⟩ := runLoop_occ_iter h
    refine ⟨j, ?_, hj⟩
    rcases hcase with h0 | hlt
    · omega
    · push_cast at hlt; omega
  · intro after fuel cEnd hfuel hstep hle
    simp only [next_run_after, hu, hcount]
    refine runLoop_count_terminal (stepOnce_mono (freqOf r) (intervalOf r) hint) n
      fuel start 0 cEnd hval (by omega) (by omega) ?_ hle
    rw [show n - 1 - 0 = n - 1 from by omega]
    exact hstep

theorem c2_count_bound_witness :
    next_run_after tzUTC ⟨2025, 1, 1, 9, 0, 0⟩ (some ⟨some "DAILY", 1, some 2, none⟩)
      ⟨2025, 1, 2, 9, 0, 0⟩ 2 = some RunResult.stop ∨
    next_run_after tzUTC ⟨2025, 1, 1, 9, 0, 0⟩ (some ⟨some "DAILY", 1, some 2, none⟩)
      ⟨2025, 1, 2, 9, 0, 0⟩ 2 = some RunResult.err :=
  (c2_count_bound tzUTC ⟨2025, 1, 1, 9, 0, 0⟩ ⟨some "DAILY", 1, some 2, none⟩ 2
    (by decide) (by decide) (by decide) (by decide) none (by decide)).2
    ⟨2025, 1, 2, 9, 0, 0⟩ 2 ⟨2025, 1, 2, 9, 0, 0⟩ (by decide) (by decide) (by decide)

/-- C4: for a due task, a successful injection sets `last_run_at` to the
scheduled occurrence (not the wall-clock time) and completes a one-shot,
setting the changed flag; a raising injection leaves the record entirely
unchanged.  In both cases the tick loop carries the callback's new state on
to the remaining tasks, which are still evaluated. -/
theorem c4_tick_injection {σ : Type} (fuel : Nat) (tz : TzEnv) (now : DT)
    (inj : Inject σ) (s s2 : σ) (ok : Bool) (t : Task) (start : DT)
    (rr : Option Rrule) (aft nxt : DT)
    (hdel : t.deleted = false)
    (hparse : parse_vevent tz t.vevent = some (start, rr))
    (hskip : (rr.isNone && t.completed) = false)
    (hafter : afterOf t start = some aft)
    (hnext : next_run_after tz start rr aft fuel = some (.occ nxt))
    (hdue : nxt.key ≤ now.key)
    (hinj : inj.run s (pyTrim t.session_id) t.prompt = (s2, ok)) :
    tick_step fuel tz now inj s t =
      some (.res (if ok then { t with last_run_at := some nxt,
                                      completed := if rr.isNone then true else t.completed }
        else t) ok s2) ∧
    (∀ (rest : List Task) (ch : Bool),
      tick_list fuel tz now inj s ch (t :: rest) =
        consRes (if ok then { t with last_run_at := some nxt,
                                     completed := if rr.isNone then true else t.completed }
          else t) (tick_list fuel tz now inj s2 (ch || ok) rest)) := by
  have hstep : tick_step fuel tz now inj s t =
      some (.res (if ok then { t with last_run_at := some nxt,
                                      completed := if rr.isNone then true else t.completed }
        else t) ok s2) := by
    cases ok with
    | true => simp [tick_step, hdel, hparse, hskip, hafter, hnext, hdue, hinj]
    | false => simp [tick_step, hdel, hparse, hskip, hafter, hnext, hdue, hinj]
  refine ⟨hstep, ?_⟩
  intro rest ch
  simp only [tick_list, hstep]

theorem c4_tick_injection_witness :
    tick_step (σ := Unit) 2 tzUTC ⟨2025, 1, 1, 9, 0, 1⟩ ⟨fun s _ _ => (s, true)⟩ ()
      ⟨"", "p", "DTSTART:20250101T090000Z", none, false, false⟩ =
      some (.res ⟨"", "p", "DTSTART:20250101T090000Z",
        some ⟨2025, 1, 1, 9, 0, 0⟩, true, false⟩ true ()) :=
  (c4_tick_injection (σ := Unit) 2 tzUTC ⟨2025, 1, 1, 9, 0, 1⟩ ⟨fun s _ _ => (s, true)⟩
    () () true ⟨"", "p", "DTSTART:20250101T090000Z", none, false, false⟩
    ⟨2025, 1, 1, 9, 0, 0⟩ none ⟨2025, 1, 1, 8, 59, 59⟩ ⟨2025, 1, 1, 9, 0, 0⟩ rfl
    (by decide) (by decide) (by decide) (by decide) (by decide) rfl).1

/-- C5: a task state just produced by a successful fire at occurrence `nxt`
(watermark `last_run_at = nxt`, one-shots completed) is not fired again by a
re-run of the tick evaluation at any wall-clock instant that has not reached
the following occurrence: the record comes back unchanged, with no injection
performed (the callback state is untouched). -/
theorem c5_tick_idempotent {σ : Type} (fuel2 : Nat) (tz : TzEnv) (now2 : DT)
    (inj : Inject σ) (s : σ) (t : Task) (start : DT) (rr : Option Rrule) (nxt : DT)
    (hdel : t.deleted = false)
    (hparse : parse_vevent tz t.vevent = some (start, rr))
    (hfollow : next_run_after tz start rr nxt fuel2 = some .stop ∨
      (∃ nxt2, next_run_after tz start rr nxt fuel2 = some (.occ nxt2) ∧
        now2.key < nxt2.key)) :
    tick_step fuel2 tz now2 inj s
      { t with last_run_at := some nxt,
               completed := if rr.isNone then true else t.completed } =
      some (.res { t with last_run_at := some nxt,
                          completed := if rr.isNone then true else t.completed } false s) := by
  cases rr with
  | none =>
    simp [tick_step, hdel, hparse]
  | some r =>
    rcases hfollow with hstop | ⟨nxt2, hocc, hlt⟩
    · simp [tick_step, hdel, hparse, afterOf, hstop]
    · have hnd : ¬ nxt2.key ≤ now2.key := by omega
      simp [tick_step, hdel, hparse, afterOf, hocc, hnd]

theorem c5_tick_idempotent_witness :
    tick_step (σ := Unit) 2 tzUTC ⟨2025, 1, 1, 9, 5, 0⟩ ⟨fun s _ _ => (s, true)⟩ ()
      ⟨"", "p", "DTSTART:20250101T090000Z", some ⟨2025, 1, 1, 9, 0, 0⟩, true, false⟩ =
      some (.res ⟨"", "p", "DTSTART:20250101T090000Z",
        some ⟨2025, 1, 1, 9, 0, 0⟩, true, false⟩ false ()) :=
  c5_tick_idempotent (σ := Unit) 2 tzUTC ⟨2025, 1, 1, 9, 5, 0⟩ ⟨fun s _ _ => (s, true)⟩ ()
    ⟨"", "p", "DTSTART:20250101T090000Z", none, false, false⟩
    ⟨2025, 1, 1, 9, 0, 0⟩ none ⟨2025, 1, 1, 9, 0, 0⟩ rfl (by decide)
    (Or.inl (by decide))

/-- Injectivity helper: equal normal per-task results carry equal records. -/
theorem res_eq_same {σ : Type} {tA tB : Task} {dA dB : Bool} {sA sB : σ}
    (h : (some (.res tA dA sA) : Option (StepOut σ)) = some (.res tB dB sB)) :
    tA = tB := by
  simp only [Option.some.injEq, StepOut.res.injEq] at h
  exact h.1

/-- C9: `last_run_at` is monotone: whenever a tick's per-task evaluation
returns normally, a present watermark is either left untouched or rewritten
to a strictly greater instant (because `_next_run_after` only ever yields an
occurrence strictly after the baseline it was given). -/
theorem c9_last_run_monotone {σ : Type} (fuel : Nat) (tz : TzEnv) (now : DT)
    (inj : Inject σ) (s : σ) (t t2 : Task) (d : Bool) (s2 : σ)
    (v : DT) (hv : t.last_run_at = some v)
    (h : tick_step fuel tz now inj s t = some (.res t2 d s2)) :
    ∃ v2, t2.last_run_at = some v2 ∧ (v2 = v ∨ v.key < v2.key) := by
  simp only [tick_step] at h
  split at h
  · refine ⟨v, ?_, Or.inl rfl⟩
    rw [← res_eq_same h]; exact hv
  · split at h
    · refine ⟨v, ?_, Or.inl rfl⟩
      rw [← res_eq_same h]; exact hv
    · rename_i st1 rr1 hp
      split at h
      · refine ⟨v, ?_, Or.inl rfl⟩
        rw [← res_eq_same h]; exact hv
      · split at h
        · exact absurd h (by simp)
        · rename_i aft haft
          split at h
          · exact absurd h (by simp)
          · exact absurd h (by simp)
          · split at h
            · refine ⟨v, ?_, Or.inl rfl⟩
              rw [← res_eq_same h]; exact hv
            · refine ⟨v, ?_, Or.inl rfl⟩
              rw [← res_eq_same h]; exact hv
          · rename_i nxt hocc
            split at h
            · split at h
              · have hgt := next_run_after_occ_gt hocc
                have hva : v = aft := by simpa [afterOf, hv] using haft
                refine ⟨nxt, ?_, Or.inr (by rw [hva]; exact hgt)⟩
                rw [← res_eq_same h]
              · refine ⟨v, ?_, Or.inl rfl⟩
                rw [← res_eq_same h]; exact hv
            · refine ⟨v, ?_, Or.inl rfl⟩
              rw [← res_eq_same h]; exact hv

theorem c9_last_run_monotone_witness :
    ∃ v2, (⟨"", "p", "DTSTART:20250101T090000Z\nRRULE:FREQ=DAILY", some ⟨2025, 1, 2, 9, 0, 0⟩,
      false, false⟩ : Task).last_run_at = some v2 ∧
      (v2 = ⟨2025, 1, 1, 9, 0, 0⟩ ∨ (⟨2025, 1, 1, 9, 0, 0⟩ : DT).key < v2.key) :=
  c9_last_run_monotone (σ := Unit) 3 tzUTC ⟨2025, 1, 2, 9, 0, 1⟩ ⟨fun s _ _ => (s, true)⟩ ()
    ⟨"", "p", "DTSTART:20250101T090000Z\nRRULE:FREQ=DAILY", some ⟨2025, 1, 1, 9, 0, 0⟩,
      false, false⟩
    ⟨"", "p", "DTSTART:20250101T090000Z\nRRULE:FREQ=DAILY", some ⟨2025, 1, 2, 9, 0, 0⟩,
      false, false⟩
    true () ⟨2025, 1, 1, 9, 0, 0⟩ rfl (by decide)

/-- `_parse_dt_value` on the empty string always raises, whatever the
timezone environment. -/
theorem parse_dt_value_empty (tz : TzEnv) (tzid : Option String) :
    parse_dt_value tz "" tzid = none := rfl

/-- C7 counterexample: the input `DTSTART:notadate` consists of exactly one
line, which is a DTSTART line, yet parsing fails (the start value is not a
recognised datetime literal) — refuting "fails if and only if the input
contains no DTSTART line". -/
theorem c7_parse_counterexample :
    pyStartsWith "DTSTART" "DTSTART:notadate" = true ∧
    ((pysplitlines "DTSTART:notadate").map pyTrim).filter (fun l => l ≠ "") =
      ["DTSTART:notadate"] ∧
    parse_vevent tzUTC "DTSTART:notadate" = none := by decide

/-- C7 (amended): parsing fails exactly when the line scan finds no DTSTART
value (or an empty one) or the start value fails datetime parsing; the RRULE
line never causes a failure — whatever its content, parsing succeeds once
the start value parses, and malformed `FREQ`/`INTERVAL`/`COUNT`/`UNTIL`
fields degrade to their permissive defaults. -/
theorem c7_parse_failure_amended (tz : TzEnv) :
    (∀ x : String, (scan_vevent x).dtv = none → parse_vevent tz x = none) ∧
    (∀ x : String, (scan_vevent x).dtv = some "" → parse_vevent tz x = none) ∧
    (∀ (x dv : String) (dt : DT), (scan_vevent x).dtv = some dv →
      parse_dt_value tz dv (scan_vevent x).tzid = some dt →
      parse_vevent tz x = some (dt, (scan_vevent x).rr)) ∧
    parse_rrule "RRULE:FREQ=;INTERVAL=abc;COUNT=xyz;UNTIL=" =
      ⟨some "", 1, none, some ""⟩ := by
  refine ⟨?_, ?_, ?_, by decide⟩
  · intro x h
    simp only [parse_vevent, h]
  · intro x h
    simp only [parse_vevent, h]
    rfl
  · intro x dv dt h1 h2
    simp only [parse_vevent, h1]
    by_cases hdv : dv = ""
    · rw [hdv, parse_dt_value_empty] at h2
      exact absurd h2 (by simp)
    · rw [if_neg hdv, h2]
      rfl

theorem c7_parse_failure_amended_witness :
    parse_vevent tzUTC "DTSTART:20250101T090000Z\nRRULE:FREQ=weird;INTERVAL=zero" =
      some (⟨2025, 1, 1, 9, 0, 0⟩, some ⟨some "weird", 1, none, none⟩) :=
  (c7_parse_failure_amended tzUTC).2.2.1
    "DTSTART:20250101T090000Z\nRRULE:FREQ=weird;INTERVAL=zero"
    "20250101T090000Z" ⟨2025, 1, 1, 9, 0, 0⟩ (by decide) (by decide)

end TaskSched
